import Mathlib

set_option maxRecDepth 8000

namespace ExpoCli

/-!
Verification development for the expo-cli mod-compiler sample.

The repository sample ships two source files: the jest test
`packages/config-plugins/src/plugins/__tests__/android-plugins-test.ts`
(a caller of the mod compiler) and
`packages/xdl/src/start/ManifestHandler.ts`.  The property-file codec,
modifier registry, base-modifier provider and mod evaluator themselves are
not in the sample, so those components are modelled from the specification
(sections 3, 4.1-4.4, 6, 7) and checked against the behavior the test pins
down.  The ManifestHandler definitions are embedded directly from the
source file.
-/

/-- Modelled from the spec: one line-level unit of a property file (the codec
source is not part of the sample; only its test is).  The variants follow
section 3 of the spec: a tagged variant over comment, blank line, property,
and an opaque passthrough for unrecognized lines.  Constructor names follow
the entry objects the test pushes (`type: 'comment' | 'empty' | 'property'`). -/
inductive Entry where
  | comment (value : String)
  | empty
  | property (key value : String)
  | passthrough (line : String)
  deriving Repr, DecidableEq

/-- Modelled from the spec (sections 4.1 and 6): render one entry to one line.
The comment marker is the hash sign, followed by one space and the comment
text (the test expects the bytes `# expo-test` for the comment value
`expo-test`); a blank entry is an empty line; a property renders as
`key=value`; a passthrough line is reproduced verbatim. -/
def serializeEntryChars : Entry → List Char
  | Entry.comment v => '#' :: ' ' :: v.data
  | Entry.empty => []
  | Entry.property k v => k.data ++ '=' :: v.data
  | Entry.passthrough l => l.data

/-- Modelled from the spec (section 4.1 serialization rule): each entry renders
to exactly one line in original order, newline-terminated, with no inserted or
removed entries. -/
def serializeChars : List Entry → List Char
  | [] => []
  | e :: rest => serializeEntryChars e ++ '\n' :: serializeChars rest

/-- Serialize an ordered entry sequence to file bytes. -/
def serialize (es : List Entry) : String := String.mk (serializeChars es)

/-- Split a character stream at newline separators; the result always has one
more segment than there are newline characters. -/
def splitNLChars : List Char → List (List Char)
  | [] => [[]]
  | c :: rest =>
    if c = '\n' then [] :: splitNLChars rest
    else
      match splitNLChars rest with
      | [] => [[c]]
      | l :: ls => (c :: l) :: ls

/-- The lines of a file: newline-separated segments, except that a trailing
newline does not introduce a final empty line (spec section 6: lines are
newline-separated and a trailing blank line is optional). -/
def linesOf (s : List Char) : List (List Char) :=
  let parts := splitNLChars s
  if parts.getLast? = some [] then parts.dropLast else parts

/-- Modelled from the spec (section 4.1 parsing rules): a line beginning with
the comment marker becomes a comment entry retaining its text sans marker and
leading whitespace; an all-whitespace line becomes a blank entry; a line
containing the delimiter becomes a property entry split at the first
delimiter, key and value taken verbatim; any other non-empty line becomes a
passthrough entry preserving its raw text. -/
def parseLineChars (l : List Char) : Entry :=
  if l.head? = some '#' then Entry.comment (String.mk (l.tail.dropWhile Char.isWhitespace))
  else if l.all Char.isWhitespace then Entry.empty
  else if l.any (fun c => c == '=') then
    Entry.property (String.mk (l.takeWhile (fun c => c != '=')))
      (String.mk ((l.dropWhile (fun c => c != '=')).tail))
  else Entry.passthrough (String.mk l)

/-- Parse file bytes into the ordered entry sequence. -/
def parse (s : String) : List Entry := (linesOf s.data).map parseLineChars

/-- Whether a character list starts with a whitespace character. -/
def headIsWs : List Char → Bool
  | [] => false
  | c :: _ => c.isWhitespace

/-- Whether a character list starts with the comment marker. -/
def headIsHash : List Char → Bool
  | [] => false
  | c :: _ => c == '#'

/-- Entries whose rendered line parses back to the same entry: newline-free
fields throughout; a comment whose text does not begin with whitespace; a
property whose key is delimiter-free and does not begin with the comment
marker; a passthrough line that is not all-whitespace, is delimiter-free and
does not begin with the comment marker. -/
def wfEntry : Entry → Bool
  | Entry.comment v => v.data.all (fun c => c != '\n') && !headIsWs v.data
  | Entry.empty => true
  | Entry.property k v =>
      k.data.all (fun c => c != '\n' && c != '=') && v.data.all (fun c => c != '\n') &&
        !headIsHash k.data
  | Entry.passthrough l =>
      l.data.all (fun c => c != '\n' && c != '=') && !(l.data.all Char.isWhitespace) &&
        !headIsHash l.data

/-- Modelled from the spec (section 4.3): the state of one file of the project
tree as the base modifier sees it: missing, readable with some contents, or
failing to read for a reason other than absence. -/
inductive FileState where
  | absent
  | present (contents : String)
  | unreadable (msg : String)
  deriving Repr, DecidableEq

/-- The project filesystem tree, mapping a path to the state of the file. -/
abbrev Fs := String → FileState

/-- Write one file, leaving every other path untouched. -/
def writeFs (fs : Fs) (path contents : String) : Fs :=
  fun q => if q = path then FileState.present contents else fs q

/-- Modelled from the spec (section 3): the mutable context threaded through
one modifier invocation chain: project root path, target platform identifier
and the evolving `modResults` value (here the ordered entry sequence of the
property-file codec, the one file shape the sample exercises). -/
structure ModRequest where
  projectRoot : String
  platform : String
  modResults : List Entry
  deriving Repr, DecidableEq

/-- A composed modifier: transforms a request, may touch the filesystem, and
may fail; failure carries a message for the evaluator to tag and aggregate. -/
abbrev Mod := ModRequest → Fs → Except String ModRequest × Fs

/-- Modelled from the spec (section 3): the logical project configuration plus
its `mods` registry mapping platform name to a mapping from file-key to the
single composed modifier function for that key. -/
structure ModConfig where
  name : String
  slug : String
  mods : List (String × List (String × Mod))

/-- Look a key up in an association list. -/
def lookupAssoc {α : Type} : List (String × α) → String → Option α
  | [], _ => none
  | (k2, v2) :: rest, k => if k2 = k then some v2 else lookupAssoc rest k

/-- Replace the value under a key in place, preserving order, appending the
pair when the key is new. -/
def setAssoc {α : Type} : List (String × α) → String → α → List (String × α)
  | [], k, v => [(k, v)]
  | (k2, v2) :: rest, k, v =>
    if k2 = k then (k, v) :: rest else (k2, v2) :: setAssoc rest k v

/-- The identity modifier, the bottom of every chain (spec section 4.2: an
identity default stands in when no modifier was registered yet). -/
def idMod : Mod := fun req fs => (Except.ok req, fs)

/-- The composed modifier currently registered for a platform and file-key. -/
def getMod (cfg : ModConfig) (platform fileKey : String) : Option Mod :=
  match lookupAssoc cfg.mods platform with
  | none => none
  | some ms => lookupAssoc ms fileKey

/-- Overwrite the registry entry for one platform and file-key. -/
def setMod (cfg : ModConfig) (platform fileKey : String) (m : Mod) : ModConfig :=
  { cfg with
    mods := setAssoc cfg.mods platform
      (setAssoc ((lookupAssoc cfg.mods platform).getD []) fileKey m) }

/-- Modelled from the spec (section 4.2): `wrap(outer, inner)(request) =
outer(inner(request))` — run the previously registered chain first and feed
its result to the newly applied modifier; an inner failure short-circuits. -/
def wrapMod (outer inner : Mod) : Mod := fun req fs =>
  match inner req fs with
  | (Except.ok req2, fs2) => outer req2 fs2
  | (Except.error e, fs2) => (Except.error e, fs2)

/-- Modelled from the spec (section 4.2 apply): registering a modifier replaces
the registry entry with the wrap of the new modifier around the previously
registered one, or around the identity default when none was registered. -/
def withMod (cfg : ModConfig) (platform fileKey : String) (action : Mod) : ModConfig :=
  setMod cfg platform fileKey (wrapMod action ((getMod cfg platform fileKey).getD idMod))

/-- Modelled from the spec (sections 4.3 and 7): reading at the start of a base
modifier: an absent file synthesizes the default empty entry sequence rather
than failing; present contents are parsed; any other read error is surfaced
tagged with the file-key. -/
def readOrDefault (fileKey : String) (st : FileState) : Except String (List Entry) :=
  match st with
  | FileState.absent => Except.ok []
  | FileState.present c => Except.ok (parse c)
  | FileState.unreadable msg => Except.error ("FileReadError " ++ fileKey ++ ": " ++ msg)

/-- Modelled from the spec (section 4.3): the base modifier resolves the path
from the project root, reads the file (default on absence), invokes the
wrapped inner chain with `modResults` seeded from the read, serializes the
returned `modResults` and writes it to the resolved path; an inner failure
suppresses the write and is passed through. -/
def baseMod (fileKey : String) (getFilePath : String → String) (inner : Mod) : Mod :=
  fun req fs =>
    let path := getFilePath req.projectRoot
    match readOrDefault fileKey (fs path) with
    | Except.error e => (Except.error e, fs)
    | Except.ok entries =>
      match inner { req with modResults := entries } fs with
      | (Except.ok res, fs2) => (Except.ok res, writeFs fs2 path (serialize res.modResults))
      | (Except.error e, fs2) => (Except.error e, fs2)

/-- Register the base modifier for a file-key: it wraps whatever content chain
was registered before it (spec section 4.2: applied after all content
modifiers so that it wraps them, read, transforms, write). -/
def withBaseMod (cfg : ModConfig) (platform fileKey : String)
    (getFilePath : String → String) : ModConfig :=
  setMod cfg platform fileKey (baseMod fileKey getFilePath ((getMod cfg platform fileKey).getD idMod))

/-- The key-specific path convention of the android gradle properties key. -/
def gradlePropertiesPath (projectRoot : String) : String :=
  projectRoot ++ "/android/gradle.properties"

/-- Modelled from the spec and the test: the base modifier for the
`android-gradle-properties` key, pointing at `android/gradle.properties`. -/
def withAndroidGradlePropertiesBaseMod (cfg : ModConfig) : ModConfig :=
  withBaseMod cfg "android" "android-gradle-properties" gradlePropertiesPath

/-- Lift a pure request transform to a modifier that cannot fail and leaves
the filesystem alone. -/
def liftAction (t : ModRequest → ModRequest) : Mod :=
  fun req fs => (Except.ok (t req), fs)

/-- Lift a pure entry-sequence transform to a content modifier. -/
def liftEntries (f : List Entry → List Entry) : Mod :=
  fun req fs => (Except.ok { req with modResults := f req.modResults }, fs)

/-- Modelled from the test: register a content modifier on the
`android-gradle-properties` key of the android platform. -/
def withGradleProperties (cfg : ModConfig) (action : ModRequest → ModRequest) : ModConfig :=
  withMod cfg "android" "android-gradle-properties" (liftAction action)

/-- The per-platform, per-file-key outcome of one evaluation (spec section 3
EvalResult): the chain's final request or an error, tagged with the platform
and file-key it belongs to. -/
structure ModResult where
  platform : String
  fileKey : String
  result : Except String ModRequest
  deriving Repr

/-- Modelled from the spec (section 4.4): run every registered composed
modifier of one platform in order, each with a freshly seeded request
(default empty `modResults`), threading the filesystem; a failing chain is
captured in its tagged result and the remaining file-keys still run. -/
def runMods (projectRoot platform : String) : List (String × Mod) → Fs → List ModResult × Fs
  | [], fs => ([], fs)
  | (k, m) :: rest, fs =>
    let out := m { projectRoot := projectRoot, platform := platform, modResults := [] } fs
    let next := runMods projectRoot platform rest out.2
    (⟨platform, k, out.1⟩ :: next.1, next.2)

/-- Modelled from the spec (section 4.4 evaluate) and the test's
`evalModsAsync(config, \x7b projectRoot, platforms \x7d)`: for each requested
platform, platforms with no registered mods are skipped silently and the
registered file-keys are evaluated sequentially; all tagged outcomes are
aggregated. -/
def evalModsAsync (cfg : ModConfig) (projectRoot : String) :
    List String → Fs → List ModResult × Fs
  | [], fs => ([], fs)
  | p :: rest, fs =>
    let out := runMods projectRoot p ((lookupAssoc cfg.mods p).getD []) fs
    let next := evalModsAsync cfg projectRoot rest out.2
    (out.1 ++ next.1, next.2)

/-- The content modifier action of the test: push, in order, a comment entry
expo-test, a blank entry, a property entry foo=bar, a blank entry and a
comment entry end-expo-test. -/
def testAction (req : ModRequest) : ModRequest :=
  { req with
    modResults := req.modResults ++
      [Entry.comment "expo-test", Entry.empty, Entry.property "foo" "bar",
       Entry.empty, Entry.comment "end-expo-test"] }

/-- The test's starting config: name foobar, slug foobar, no mods. -/
def emptyConfig : ModConfig := { name := "foobar", slug := "foobar", mods := [] }

/-- The test's fully registered config: the content modifier, then the base
modifier for the same key. -/
def c1Config : ModConfig :=
  withAndroidGradlePropertiesBaseMod (withGradleProperties emptyConfig testAction)

/-- A project tree with no files at all. -/
def emptyFs : Fs := fun _ => FileState.absent

/-- A modifier that fails immediately with the given message. -/
def errorMod (e : String) : Mod := fun _ fs => (Except.error e, fs)

/-- Register a list of pure content transforms, in order, on one key. -/
def registerAll (cfg : ModConfig) (platform fileKey : String)
    (l : List (List Entry → List Entry)) : ModConfig :=
  l.foldl (fun c f => withMod c platform fileKey (liftEntries f)) cfg

/-- Apply a list of entry transforms in order. -/
def applyAll (l : List (List Entry → List Entry)) (x : List Entry) : List Entry :=
  l.foldl (fun x f => f x) x

/-- A config carrying one pure content transform and, registered after it,
the base modifier, both on the android gradle properties key. -/
def singleModConfig (f : List Entry → List Entry) : ModConfig :=
  withAndroidGradlePropertiesBaseMod
    (withMod emptyConfig "android" "android-gradle-properties" (liftEntries f))

/-- Whether a file-state holds contents ending in the given suffix. -/
def contentsEndWith (st : FileState) (sfx : String) : Bool :=
  match st with
  | FileState.present c => List.isSuffixOf sfx.data c.data
  | _ => false

/-- ManifestHandler.ts lines 49-56: the six environment-variable names that
are never exposed in a served manifest. -/
def blacklistedEnvironmentVariables : List String :=
  ["EXPO_APPLE_PASSWORD", "EXPO_ANDROID_KEY_PASSWORD", "EXPO_ANDROID_KEYSTORE_PASSWORD",
   "EXPO_IOS_DIST_P12_PASSWORD", "EXPO_IOS_PUSH_P12_PASSWORD", "EXPO_CLI_PASSWORD"]

/-- The TS code's `key.toUpperCase()`: uppercase every character (on the
ASCII names involved this is the character-wise uppercase map). -/
def toUpperAscii (s : String) : String := String.mk (s.data.map Char.toUpper)

/-- ManifestHandler.ts lines 58-63: a key is exposed unless its uppercased
form is blacklisted, and only when it starts with REACT_NATIVE_ or EXPO_. -/
def shouldExposeEnvironmentVariableInManifest (key : String) : Bool :=
  if toUpperAscii key ∈ blacklistedEnvironmentVariables then false
  else key.startsWith "REACT_NATIVE_" || key.startsWith "EXPO_"

/-- ManifestHandler.ts lines 289-296: build the manifest's env mapping from
the process environment (passed explicitly here as an ordered key-value
list), keeping exactly the keys the predicate exposes. -/
def getManifestEnvironment (env : List (String × String)) : List (String × String) :=
  env.filter (fun kv => shouldExposeEnvironmentVariableInManifest kv.1)

/-- ManifestHandler.ts lines 34-47: the module-level signed-manifest cache,
one field per TS property.  The TS union type makes the two fields null
together or set together; here that shape is proved as an invariant rather
than assumed. -/
structure CachedSignedManifest where
  manifestString : Option String
  signedManifest : Option String
  deriving Repr, DecidableEq

/-- ManifestHandler.ts lines 329-351, in state-passing form: takes the
serialized manifest (the TS code's `JSON.stringify(manifest)`), the outcome
the remote manifest/sign call would produce, and the current cache; returns
the result, the new cache, and whether the remote signing API was called.
On a cache hit the cached signed manifest is returned and nothing else
happens; on a miss a successful signing response overwrites both cache
fields, while a failing call leaves the cache untouched and propagates. -/
def getSignedManifestStringAsync (manifestString : String)
    (signResponse : Except String String) (cache : CachedSignedManifest) :
    Except String (Option String) × CachedSignedManifest × Bool :=
  if cache.manifestString = some manifestString then
    (Except.ok cache.signedManifest, cache, false)
  else
    match signResponse with
    | Except.ok r =>
      (Except.ok (some r),
        { manifestString := some manifestString, signedManifest := some r }, true)
    | Except.error e => (Except.error e, cache, true)

lemma string_eta (s : String) : String.mk s.data = s := rfl

lemma not_mem_of_all_bne {l : List Char} {a : Char}
    (h : l.all (fun c => c != a) = true) : a ∉ l := by
  intro hm
  have h2 := List.all_eq_true.mp h a hm
  simp at h2

lemma splitNLChars_append (l rest : List Char) (h : '\n' ∉ l) :
    splitNLChars (l ++ '\n' :: rest) = l :: splitNLChars rest := by
  induction l with
  | nil => simp [splitNLChars]
  | cons c t ih =>
    have hc : ¬ c = '\n' := by
      intro hh
      exact h (hh ▸ List.mem_cons_self c t)
    have ht : '\n' ∉ t := fun hh => h (List.mem_cons_of_mem c hh)
    rw [List.cons_append]
    show (if c = '\n' then [] :: splitNLChars (t ++ '\n' :: rest)
      else
        match splitNLChars (t ++ '\n' :: rest) with
        | [] => [[c]]
        | l2 :: ls => (c :: l2) :: ls) = (c :: t) :: splitNLChars rest
    rw [if_neg hc, ih ht]

lemma serializeEntryChars_no_nl (e : Entry) (h : wfEntry e = true) :
    '\n' ∉ serializeEntryChars e := by
  cases e with
  | comment v =>
    simp only [wfEntry, Bool.and_eq_true] at h
    have hv : '\n' ∉ v.data := not_mem_of_all_bne h.1
    simp only [serializeEntryChars, List.mem_cons]
    rintro (h1 | h1 | h1)
    · exact absurd h1 (by decide)
    · exact absurd h1 (by decide)
    · exact hv h1
  | empty =>
    simp [serializeEntryChars]
  | property k v =>
    simp only [wfEntry, Bool.and_eq_true] at h
    have hk : '\n' ∉ k.data := by
      apply not_mem_of_all_bne
      apply List.all_eq_true.mpr
      intro c hc
      have h2 := List.all_eq_true.mp h.1.1 c hc
      exact (Bool.and_eq_true _ _).mp h2 |>.1
    have hv : '\n' ∉ v.data := not_mem_of_all_bne h.1.2
    simp only [serializeEntryChars, List.mem_append, List.mem_cons]
    rintro (h1 | h1 | h1)
    · exact hk h1
    · exact absurd h1 (by decide)
    · exact hv h1
  | passthrough l =>
    simp only [wfEntry, Bool.and_eq_true] at h
    apply not_mem_of_all_bne (a := '\n') (l := l.data)
    apply List.all_eq_true.mpr
    intro c hc
    have h2 := List.all_eq_true.mp h.1.1 c hc
    exact (Bool.and_eq_true _ _).mp h2 |>.1

lemma dropWhile_ws_of_head (v : List Char) (h : headIsWs v = false) :
    v.dropWhile Char.isWhitespace = v := by
  cases v with
  | nil => rfl
  | cons c t =>
    simp only [headIsWs] at h
    rw [List.dropWhile_cons, if_neg (by simp [h])]

lemma takeWhile_bne_append (k v : List Char) (h : ∀ c ∈ k, (c != '=') = true) :
    (k ++ '=' :: v).takeWhile (fun c => c != '=') = k := by
  induction k with
  | nil =>
    rw [List.nil_append, List.takeWhile_cons, if_neg (by decide)]
  | cons c t ih =>
    have hc := h c (List.mem_cons_self c t)
    have ht : ∀ c2 ∈ t, (c2 != '=') = true := fun c2 hc2 => h c2 (List.mem_cons_of_mem c hc2)
    rw [List.cons_append, List.takeWhile_cons, if_pos hc, ih ht]

lemma dropWhile_bne_append (k v : List Char) (h : ∀ c ∈ k, (c != '=') = true) :
    (k ++ '=' :: v).dropWhile (fun c => c != '=') = '=' :: v := by
  induction k with
  | nil =>
    rw [List.nil_append, List.dropWhile_cons, if_neg (by decide)]
  | cons c t ih =>
    have hc := h c (List.mem_cons_self c t)
    have ht : ∀ c2 ∈ t, (c2 != '=') = true := fun c2 hc2 => h c2 (List.mem_cons_of_mem c hc2)
    rw [List.cons_append, List.dropWhile_cons, if_pos hc, ih ht]

lemma parseLineChars_serializeEntryChars (e : Entry) (h : wfEntry e = true) :
    parseLineChars (serializeEntryChars e) = e := by
  cases e with
  | comment v =>
    simp only [wfEntry, Bool.and_eq_true, Bool.not_eq_true'] at h
    show parseLineChars ('#' :: ' ' :: v.data) = Entry.comment v
    unfold parseLineChars
    rw [if_pos (show ('#' :: ' ' :: v.data).head? = some '#' from rfl)]
    rw [show ('#' :: ' ' :: v.data).tail = ' ' :: v.data from rfl]
    rw [List.dropWhile_cons, if_pos (by decide), dropWhile_ws_of_head v.data h.2, string_eta]
  | empty =>
    show parseLineChars [] = Entry.empty
    unfold parseLineChars
    rw [if_neg (by decide), if_pos (by decide)]
  | property k v =>
    simp only [wfEntry, Bool.and_eq_true, Bool.not_eq_true'] at h
    have hkeq : ∀ c ∈ k.data, (c != '=') = true := by
      intro c hc
      have h2 := List.all_eq_true.mp h.1.1 c hc
      exact (Bool.and_eq_true _ _).mp h2 |>.2
    show parseLineChars (k.data ++ '=' :: v.data) = Entry.property k v
    unfold parseLineChars
    rw [if_neg ?hnh, if_neg ?hnw, if_pos ?hany]
    case hnh =>
      cases hk : k.data with
      | nil => simp [hk]
      | cons c t =>
        rw [hk] at h
        simp only [headIsHash] at h
        simp [hk, h.2]
        intro hcontra
        rw [hcontra] at h
        simp at h
    case hnw =>
      intro hcontra
      have h2 := List.all_eq_true.mp hcontra '=' (by
        apply List.mem_append_right
        exact List.mem_cons_self _ _)
      exact absurd h2 (by decide)
    case hany =>
      apply List.any_eq_true.mpr
      refine ⟨'=', ?_, by decide⟩
      apply List.mem_append_right
      exact List.mem_cons_self _ _
    rw [takeWhile_bne_append k.data v.data hkeq, dropWhile_bne_append k.data v.data hkeq]
    rw [List.tail_cons, string_eta, string_eta]
  | passthrough l =>
    simp only [wfEntry, Bool.and_eq_true, Bool.not_eq_true'] at h
    have hleq : ∀ c ∈ l.data, (c != '=') = true := by
      intro c hc
      have h2 := List.all_eq_true.mp h.1.1 c hc
      exact (Bool.and_eq_true _ _).mp h2 |>.2
    show parseLineChars l.data = Entry.passthrough l
    unfold parseLineChars
    rw [if_neg ?hnh, if_neg ?hnw, if_neg ?hany]
    case hnh =>
      cases hl : l.data with
      | nil => simp [hl]
      | cons c t =>
        rw [hl] at h
        simp only [headIsHash] at h
        simp [hl, h.2]
        intro hcontra
        rw [hcontra] at h
        simp at h
    case hnw =>
      rw [h.1.2]
      simp
    case hany =>
      intro hcontra
      obtain ⟨c, hc, hceq⟩ := List.any_eq_true.mp hcontra
      have h2 := hleq c hc
      have hce : c = '=' := by simpa using hceq
      rw [hce] at h2
      exact absurd h2 (by decide)

lemma splitNLChars_serializeChars (es : List Entry) (h : ∀ e ∈ es, wfEntry e = true) :
    splitNLChars (serializeChars es) = es.map serializeEntryChars ++ [[]] := by
  induction es with
  | nil => simp [serializeChars, splitNLChars]
  | cons e rest ih =>
    have he := h e (List.mem_cons_self e rest)
    have hr : ∀ x ∈ rest, wfEntry x = true := fun x hx => h x (List.mem_cons_of_mem e hx)
    show splitNLChars (serializeEntryChars e ++ '\n' :: serializeChars rest) = _
    rw [splitNLChars_append _ _ (serializeEntryChars_no_nl e he), ih hr]
    simp

lemma linesOf_serializeChars (es : List Entry) (h : ∀ e ∈ es, wfEntry e = true) :
    linesOf (serializeChars es) = es.map serializeEntryChars := by
  unfold linesOf
  rw [splitNLChars_serializeChars es h]
  rw [if_pos (List.getLast?_concat _)]
  exact List.dropLast_concat

/-- The central round-trip property: parsing the serialization of a sequence
of well-formed entries returns the sequence itself. -/
lemma parse_serialize_of_wf (es : List Entry) (h : ∀ e ∈ es, wfEntry e = true) :
    parse (serialize es) = es := by
  unfold parse serialize
  rw [show (String.mk (serializeChars es)).data = serializeChars es from rfl]
  rw [linesOf_serializeChars es h, List.map_map]
  have h2 : ∀ e ∈ es, (parseLineChars ∘ serializeEntryChars) e = id e := by
    intro e he
    exact parseLineChars_serializeEntryChars e (h e he)
  rw [List.map_congr_left h2, List.map_id]

lemma writeFs_self (fs : Fs) (path c : String) :
    writeFs fs path c path = FileState.present c := by
  unfold writeFs
  rw [if_pos rfl]

lemma lookupAssoc_setAssoc_self {α : Type} (l : List (String × α)) (k : String) (v : α) :
    lookupAssoc (setAssoc l k v) k = some v := by
  induction l with
  | nil =>
    show lookupAssoc [(k, v)] k = some v
    unfold lookupAssoc
    rw [if_pos rfl]
  | cons e rest ih =>
    obtain ⟨k2, v2⟩ := e
    show lookupAssoc (if k2 = k then (k, v) :: rest else (k2, v2) :: setAssoc rest k v) k = some v
    by_cases h : k2 = k
    · rw [if_pos h]
      unfold lookupAssoc
      rw [if_pos rfl]
    · rw [if_neg h]
      unfold lookupAssoc
      rw [if_neg h]
      exact ih

lemma getMod_setMod (cfg : ModConfig) (p k : String) (m : Mod) :
    getMod (setMod cfg p k m) p k = some m := by
  unfold getMod setMod
  rw [lookupAssoc_setAssoc_self]
  exact lookupAssoc_setAssoc_self _ _ _

lemma getMod_withMod (cfg : ModConfig) (p k : String) (a : Mod) :
    getMod (withMod cfg p k a) p k = some (wrapMod a ((getMod cfg p k).getD idMod)) := by
  unfold withMod
  exact getMod_setMod _ _ _ _

lemma singleModConfig_eq (f : List Entry → List Entry) :
    singleModConfig f =
      ⟨"foobar", "foobar",
        [("android",
          [("android-gradle-properties",
            baseMod "android-gradle-properties" gradlePropertiesPath
              (wrapMod (liftEntries f) idMod))])]⟩ := rfl

lemma eval_single (f : List Entry → List Entry) (root : String) (fs : Fs) :
    evalModsAsync (singleModConfig f) root ["android"] fs =
      match readOrDefault "android-gradle-properties" (fs (gradlePropertiesPath root)) with
      | Except.ok entries =>
          ([⟨"android", "android-gradle-properties",
              Except.ok ⟨root, "android", f entries⟩⟩],
            writeFs fs (gradlePropertiesPath root) (serialize (f entries)))
      | Except.error e =>
          ([⟨"android", "android-gradle-properties", Except.error e⟩], fs) := by
  rw [singleModConfig_eq]
  cases hr : readOrDefault "android-gradle-properties" (fs (gradlePropertiesPath root)) with
  | ok entries =>
    simp only [evalModsAsync, runMods, lookupAssoc, baseMod, wrapMod, liftEntries, idMod,
      reduceIte, Option.getD_some, hr, List.append_nil]
  | error e =>
    simp only [evalModsAsync, runMods, lookupAssoc, baseMod, wrapMod, liftEntries, idMod,
      reduceIte, Option.getD_some, hr, List.append_nil]

lemma runMods_keys (root p : String) (ms : List (String × Mod)) (fs : Fs) :
    ((runMods root p ms fs).1).map (fun r => (r.platform, r.fileKey)) =
      ms.map (fun e => (p, e.1)) := by
  induction ms generalizing fs with
  | nil => simp [runMods]
  | cons e rest ih =>
    obtain ⟨k, m⟩ := e
    simp only [runMods, List.map_cons]
    rw [ih]

lemma registerAll_single (p k : String) :
    ∀ (l : List (List Entry → List Entry)) (name slug : String) (m : Mod)
      (F : List Entry → List Entry),
      (∀ req fs, m req fs = (Except.ok { req with modResults := F req.modResults }, fs)) →
      ∃ m2 : Mod,
        registerAll ⟨name, slug, [(p, [(k, m)])]⟩ p k l = ⟨name, slug, [(p, [(k, m2)])]⟩ ∧
        ∀ req fs,
          m2 req fs = (Except.ok { req with modResults := applyAll l (F req.modResults) }, fs) := by
  intro l
  induction l with
  | nil =>
    intro name slug m F hm
    exact ⟨m, rfl, fun req fs => hm req fs⟩
  | cons g t ih =>
    intro name slug m F hm
    have hcfg : withMod ⟨name, slug, [(p, [(k, m)])]⟩ p k (liftEntries g) =
        ⟨name, slug, [(p, [(k, wrapMod (liftEntries g) m)])]⟩ := by
      unfold withMod setMod getMod
      simp [lookupAssoc, setAssoc]
    have hm2 : ∀ req fs, (wrapMod (liftEntries g) m) req fs =
        (Except.ok { req with modResults := g (F req.modResults) }, fs) := by
      intro req fs
      unfold wrapMod
      rw [hm req fs]
      rfl
    have hstep : registerAll ⟨name, slug, [(p, [(k, m)])]⟩ p k (g :: t) =
        registerAll (withMod ⟨name, slug, [(p, [(k, m)])]⟩ p k (liftEntries g)) p k t := rfl
    rw [hstep, hcfg]
    obtain ⟨m2, h1, h2⟩ := ih name slug (wrapMod (liftEntries g) m) (fun r => g (F r)) hm2
    exact ⟨m2, h1, fun req fs => h2 req fs⟩

/-- C1: after registering on file-key android-gradle-properties a content
modifier that appends, in order, a comment entry expo-test, a blank entry, a
property entry foo=bar, a blank entry and a comment entry end-expo-test, and
then registering the base modifier for that key, running evaluate for
platform android on a project whose android/gradle.properties file does not
yet exist produces a file whose content ends with the exact bytes of
hash-space expo-test, blank line, foo=bar, blank line, hash-space
end-expo-test, newline-terminated. -/
theorem c1_gradle_properties_scenario :
    contentsEndWith
      ((evalModsAsync c1Config "/app" ["android"] emptyFs).2 "/app/android/gradle.properties")
      "# expo-test\n\nfoo=bar\n\n# end-expo-test\n" = true := by decide

/-- C2 counterexample: the serializer output for the single comment entry
with text starting in a space is not reproduced by serialize after parse,
because parsing strips the leading whitespace of a comment. -/
theorem c2_roundtrip_counterexample :
    serialize (parse (serialize [Entry.comment " x"])) ≠ serialize [Entry.comment " x"] := by
  decide

/-- C2 as amended: for every byte string produced by serialize from a
well-formed entry sequence (newline-free fields, comment text not beginning
with whitespace, property key delimiter-free and not beginning with the
comment marker, passthrough lines non-blank, delimiter-free and not
beginning with the comment marker), re-serializing the parse reproduces the
bytes exactly. -/
theorem c2_serialize_after_parse_on_wf_output (es : List Entry)
    (h : ∀ e ∈ es, wfEntry e = true) :
    serialize (parse (serialize es)) = serialize es := by
  rw [parse_serialize_of_wf es h]

theorem c2_roundtrip_witness :
    serialize (parse (serialize [Entry.comment "a", Entry.empty, Entry.property "k" "v"])) =
      serialize [Entry.comment "a", Entry.empty, Entry.property "k" "v"] :=
  c2_serialize_after_parse_on_wf_output
    [Entry.comment "a", Entry.empty, Entry.property "k" "v"] (by decide)

/-- C3 counterexample: a property entry whose key contains the delimiter does
not survive the round trip; parsing splits at the first delimiter. -/
theorem c3_roundtrip_counterexample :
    parse (serialize [Entry.property "a=b" "c"]) ≠ [Entry.property "a=b" "c"] := by
  decide

/-- C3 as amended: for every entry sequence of well-formed entries
(newline-free fields, comment text not beginning with whitespace, property
key delimiter-free and not beginning with the comment marker, passthrough
lines non-blank, delimiter-free and not beginning with the comment marker),
parsing the serialization yields the same sequence. -/
theorem c3_parse_after_serialize_of_wf (es : List Entry)
    (h : ∀ e ∈ es, wfEntry e = true) :
    parse (serialize es) = es :=
  parse_serialize_of_wf es h

theorem c3_roundtrip_witness :
    parse (serialize [Entry.passthrough "x", Entry.property "" "v"]) =
      [Entry.passthrough "x", Entry.property "" "v"] :=
  c3_parse_after_serialize_of_wf [Entry.passthrough "x", Entry.property "" "v"] (by decide)

/-- C4: registering a modifier replaces the registry entry with the wrap of
the new modifier around the previous one (or the identity), where the
wrapped previous chain runs first and feeds its result to the new modifier;
consequently a modifier applied later observes the output of one applied
earlier on the same key, and a base modifier applied last serializes the
content chain's result to disk. -/
theorem c4_wrap_composition_order :
    (∀ (cfg : ModConfig) (p k : String) (a : Mod),
        getMod (withMod cfg p k a) p k = some (wrapMod a ((getMod cfg p k).getD idMod))) ∧
    (∀ (p k : String) (f g : List Entry → List Entry) (req : ModRequest) (fs : Fs),
        ((getMod (withMod (withMod emptyConfig p k (liftEntries f)) p k (liftEntries g))
            p k).getD idMod) req fs =
          (Except.ok { req with modResults := g (f req.modResults) }, fs)) ∧
    (∀ (f : List Entry → List Entry) (c : String),
        (evalModsAsync (singleModConfig f) "/app" ["android"]
            (fun _ => FileState.present c)).2 (gradlePropertiesPath "/app") =
          FileState.present (serialize (f (parse c)))) := by
  refine ⟨getMod_withMod, ?_, ?_⟩
  · intro p k f g req fs
    rw [getMod_withMod, getMod_withMod]
    rfl
  · intro f c
    rw [eval_single f "/app" (fun _ => FileState.present c)]
    simp only [readOrDefault]
    exact writeFs_self _ _ _

/-- C5: when one file-key's chain fails during an evaluate invocation, the
evaluator captures the failure tagged with its platform and file-key, still
runs every remaining file-key, and returns the failures together with the
successful results: the tagged result list always covers the registered
file-keys one for one, and a failing first key leaves the second key's
result intact. -/
theorem c5_error_isolation :
    (∀ (name slug root p : String) (ms : List (String × Mod)) (fs : Fs),
        ((evalModsAsync ⟨name, slug, [(p, ms)]⟩ root [p] fs).1).map
            (fun r => (r.platform, r.fileKey)) =
          ms.map (fun e => (p, e.1))) ∧
    (∀ (name slug root p k1 k2 : String) (m2 : Mod) (msg : String) (fs : Fs),
        (evalModsAsync ⟨name, slug, [(p, [(k1, errorMod msg), (k2, m2)])]⟩ root [p] fs).1 =
          [⟨p, k1, Except.error msg⟩,
           ⟨p, k2, (m2 ⟨root, p, []⟩ fs).1⟩]) := by
  constructor
  · intro name slug root p ms fs
    simp only [evalModsAsync, lookupAssoc, reduceIte, List.append_nil, eq_self_iff_true,
      if_true, Option.getD_some, List.map_append, List.map_nil]
    rw [runMods_keys]
  · intro name slug root p k1 k2 m2 msg fs
    simp only [evalModsAsync, lookupAssoc, reduceIte, List.append_nil, eq_self_iff_true,
      if_true, Option.getD_some, runMods, errorMod]

/-- C6: a base modifier whose resolved path holds no file does not fail: it
seeds the inner chain with the default empty entry sequence and the chain's
outcome is exactly the inner chain's outcome, while a read failure other
than absence is surfaced as an error tagged with the file-key; through the
full pipeline an absent file yields a successful tagged result. -/
theorem c6_missing_file_default :
    (∀ (fileKey : String) (getFilePath : String → String) (inner : Mod)
        (req : ModRequest) (fs : Fs),
        fs (getFilePath req.projectRoot) = FileState.absent →
        (baseMod fileKey getFilePath inner req fs).1 =
          (inner { req with modResults := [] } fs).1) ∧
    (∀ (fileKey : String) (getFilePath : String → String) (inner : Mod)
        (req : ModRequest) (fs : Fs) (msg : String),
        fs (getFilePath req.projectRoot) = FileState.unreadable msg →
        baseMod fileKey getFilePath inner req fs =
          (Except.error ("FileReadError " ++ fileKey ++ ": " ++ msg), fs)) ∧
    (∀ (f : List Entry → List Entry) (root : String),
        (evalModsAsync (singleModConfig f) root ["android"] emptyFs).1 =
          [⟨"android", "android-gradle-properties",
            Except.ok ⟨root, "android", f []⟩⟩]) := by
  refine ⟨?_, ?_, ?_⟩
  · intro fileKey gp inner req fs h
    simp only [baseMod, h, readOrDefault]
    rcases hr : inner { req with modResults := [] } fs with ⟨r, fs2⟩
    cases r <;> rfl
  · intro fileKey gp inner req fs msg h
    simp only [baseMod, h, readOrDefault]
  · intro f root
    rw [eval_single f root emptyFs]
    rfl

theorem c6_missing_file_default_witness :
    (baseMod "k" (fun r => r) idMod ⟨"/r", "android", []⟩ emptyFs).1 =
      (idMod { ModRequest.mk "/r" "android" [] with modResults := [] } emptyFs).1 ∧
    baseMod "k" (fun r => r) idMod ⟨"/r", "android", []⟩
        (fun _ => FileState.unreadable "boom") =
      (Except.error ("FileReadError " ++ "k" ++ ": " ++ "boom"),
        fun _ => FileState.unreadable "boom") :=
  ⟨c6_missing_file_default.1 "k" (fun r => r) idMod ⟨"/r", "android", []⟩ emptyFs rfl,
   c6_missing_file_default.2.1 "k" (fun r => r) idMod ⟨"/r", "android", []⟩
     (fun _ => FileState.unreadable "boom") "boom" rfl⟩

/-- C7 counterexample: with the test's appending content modifier and its
base modifier registered, a second evaluate run on the project produced by
the first run yields a different gradle.properties: the appended block is
duplicated, so evaluate is not idempotent for arbitrary modifiers. -/
theorem c7_double_eval_counterexample :
    (evalModsAsync c1Config "/app" ["android"]
        ((evalModsAsync c1Config "/app" ["android"] emptyFs).2)).2
      "/app/android/gradle.properties" ≠
    (evalModsAsync c1Config "/app" ["android"] emptyFs).2
      "/app/android/gradle.properties" := by decide

/-- C7 as amended: running evaluate twice with the same modifiers is
idempotent at the file level provided the registered content transform is
itself idempotent and produces well-formed entries (an upsert-style
modifier); the appending modifier of the concrete test violates this and
duplicates its block. -/
theorem c7_idempotent_eval_of_idempotent_mods (f : List Entry → List Entry)
    (hidem : ∀ l, f (f l) = f l)
    (hwf : ∀ l : List Entry, ∀ e ∈ f l, wfEntry e = true) (fs : Fs) :
    (evalModsAsync (singleModConfig f) "/app" ["android"]
        ((evalModsAsync (singleModConfig f) "/app" ["android"] fs).2)).2
      (gradlePropertiesPath "/app") =
    (evalModsAsync (singleModConfig f) "/app" ["android"] fs).2
      (gradlePropertiesPath "/app") := by
  rw [eval_single f "/app" fs]
  cases hst : fs (gradlePropertiesPath "/app") with
  | absent =>
    simp only [readOrDefault]
    rw [eval_single f "/app" (writeFs fs (gradlePropertiesPath "/app") (serialize (f [])))]
    rw [writeFs_self]
    simp only [readOrDefault]
    rw [parse_serialize_of_wf (f []) (hwf []), hidem [], writeFs_self]
  | present c =>
    simp only [readOrDefault]
    rw [eval_single f "/app"
      (writeFs fs (gradlePropertiesPath "/app") (serialize (f (parse c))))]
    rw [writeFs_self]
    simp only [readOrDefault]
    rw [parse_serialize_of_wf (f (parse c)) (hwf (parse c)), hidem (parse c), writeFs_self]
  | unreadable msg =>
    simp only [readOrDefault]
    rw [eval_single f "/app" fs, hst]
    simp only [readOrDefault]
    exact hst

theorem c7_idempotent_witness :
    (evalModsAsync (singleModConfig (fun _ => [Entry.property "foo" "bar"])) "/app" ["android"]
        ((evalModsAsync (singleModConfig (fun _ => [Entry.property "foo" "bar"])) "/app"
            ["android"] emptyFs).2)).2 (gradlePropertiesPath "/app") =
      (evalModsAsync (singleModConfig (fun _ => [Entry.property "foo" "bar"])) "/app"
          ["android"] emptyFs).2 (gradlePropertiesPath "/app") :=
  c7_idempotent_eval_of_idempotent_mods (fun _ => [Entry.property "foo" "bar"])
    (fun _ => rfl)
    (fun l e he => by
      simp only [List.mem_singleton] at he
      rw [he]
      decide)
    emptyFs

/-- C8: a file-key on which only content modifiers were registered (no base
modifier) leaves the filesystem exactly as it was, while the returned tagged
result carries the modResults of all registered transforms applied in
registration order to the default empty sequence. -/
theorem c8_content_only_no_fs_effect :
    ∀ (p k : String) (f : List Entry → List Entry) (l : List (List Entry → List Entry))
      (name slug root : String) (fs : Fs),
      evalModsAsync (registerAll ⟨name, slug, []⟩ p k (f :: l)) root [p] fs =
        ([⟨p, k, Except.ok ⟨root, p, applyAll l (f [])⟩⟩], fs) := by
  intro p k f l name slug root fs
  have hstep : registerAll (⟨name, slug, []⟩ : ModConfig) p k (f :: l) =
      registerAll ⟨name, slug, [(p, [(k, wrapMod (liftEntries f) idMod)])]⟩ p k l := rfl
  rw [hstep]
  obtain ⟨m2, h1, h2⟩ :=
    registerAll_single p k l name slug (wrapMod (liftEntries f) idMod) f (fun req fs => rfl)
  rw [h1]
  simp only [evalModsAsync, runMods, lookupAssoc, eq_self_iff_true, if_true,
    Option.getD_some, List.append_nil, h2]

/-- C9: getManifestEnvironment includes an environment variable exactly when
its name starts with REACT_NATIVE_ or EXPO_ and its uppercased name is not
one of the six blacklisted password variables; in particular no blacklisted
credential is ever exposed. -/
theorem c9_manifest_env_exposure (env : List (String × String)) (k v : String) :
    ((k, v) ∈ getManifestEnvironment env ↔
      (k, v) ∈ env ∧
        (k.startsWith "REACT_NATIVE_" = true ∨ k.startsWith "EXPO_" = true) ∧
        toUpperAscii k ∉ blacklistedEnvironmentVariables) ∧
    (toUpperAscii k ∈ blacklistedEnvironmentVariables → (k, v) ∉ getManifestEnvironment env) := by
  have hp : shouldExposeEnvironmentVariableInManifest k = true ↔
      ((k.startsWith "REACT_NATIVE_" = true ∨ k.startsWith "EXPO_" = true) ∧
        toUpperAscii k ∉ blacklistedEnvironmentVariables) := by
    unfold shouldExposeEnvironmentVariableInManifest
    by_cases hb : toUpperAscii k ∈ blacklistedEnvironmentVariables
    · rw [if_pos hb]
      simp [hb]
    · rw [if_neg hb]
      simp [hb, Bool.or_eq_true]
  constructor
  · simp only [getManifestEnvironment, List.mem_filter]
    rw [hp]
  · intro hb hm
    simp only [getManifestEnvironment, List.mem_filter] at hm
    have h2 := hm.2
    rw [hp] at h2
    exact h2.2 hb

theorem c9_manifest_env_witness :
    ("EXPO_CLI_PASSWORD", "p") ∉
      getManifestEnvironment [("EXPO_TOKEN", "x"), ("EXPO_CLI_PASSWORD", "p"), ("HOME", "h")] :=
  (c9_manifest_env_exposure [("EXPO_TOKEN", "x"), ("EXPO_CLI_PASSWORD", "p"), ("HOME", "h")]
      "EXPO_CLI_PASSWORD" "p").2 (by decide)

/-- C10: getSignedManifestStringAsync caches exactly one signed artifact
keyed by the exact serialized manifest: on a hit it returns the cached
signed manifest without calling the remote API and leaves the cache alone;
on a miss a successful signing call overwrites both cache fields as a
matching pair, a failed call leaves the cache untouched, and the cache
fields are always both null or both set. -/
theorem c10_signed_manifest_cache :
    (∀ (ms : String) (sr : Except String String) (cache : CachedSignedManifest),
        cache.manifestString = some ms →
        getSignedManifestStringAsync ms sr cache =
          (Except.ok cache.signedManifest, cache, false)) ∧
    (∀ (ms r : String) (cache : CachedSignedManifest),
        cache.manifestString ≠ some ms →
        getSignedManifestStringAsync ms (Except.ok r) cache =
          (Except.ok (some r), ⟨some ms, some r⟩, true)) ∧
    (∀ (ms e : String) (cache : CachedSignedManifest),
        cache.manifestString ≠ some ms →
        getSignedManifestStringAsync ms (Except.error e) cache =
          (Except.error e, cache, true)) ∧
    (∀ (ms : String) (sr : Except String String) (cache : CachedSignedManifest),
        (cache.manifestString = none ↔ cache.signedManifest = none) →
        ((getSignedManifestStringAsync ms sr cache).2.1.manifestString = none ↔
          (getSignedManifestStringAsync ms sr cache).2.1.signedManifest = none)) := by
  refine ⟨?_, ?_, ?_, ?_⟩
  · intro ms sr cache h
    unfold getSignedManifestStringAsync
    rw [if_pos h]
  · intro ms r cache h
    unfold getSignedManifestStringAsync
    rw [if_neg h]
  · intro ms e cache h
    unfold getSignedManifestStringAsync
    rw [if_neg h]
  · intro ms sr cache h
    unfold getSignedManifestStringAsync
    by_cases hc : cache.manifestString = some ms
    · rw [if_pos hc]
      exact h
    · rw [if_neg hc]
      cases sr with
      | ok r => simp
      | error e => exact h

theorem c10_signed_manifest_cache_witness :
    getSignedManifestStringAsync "m" (Except.ok "r")
        (CachedSignedManifest.mk (some "m") (some "s")) =
      (Except.ok (CachedSignedManifest.mk (some "m") (some "s")).signedManifest,
        CachedSignedManifest.mk (some "m") (some "s"), false) :=
  c10_signed_manifest_cache.1 "m" (Except.ok "r")
    (CachedSignedManifest.mk (some "m") (some "s")) rfl

end ExpoCli
